import Mathlib

/-!
Verification of the reddit-scanner worker (`src/index.ts`).

The worker polls a subreddit feed, deduplicates the fetched posts against a
key-value store, persists and notifies each new post, and sweeps records
older than a retention window.  The development below is a shallow embedding
of the functions of `src/index.ts` that the correctness claims are about:

* `sendDiscordNotification` (lines 4-142): webhook notification, no-throw.
* `scheduled` (lines 191-235): the per-tick ingest pipeline; its dedup
  filter (lines 211-214) and per-item loop (lines 218-227) are embedded as
  `newPostsOf` and `ingestLoop`.
* `getPostsFromKV` (lines 240-262): load all stored records.
* `storePostInKV` (lines 267-289): persist one post.
* `cleanupOldPosts` (lines 294-321): the retention sweeper.

The external Cloudflare KV namespace is modelled as an association list from
string keys to values, together with an explicit fault model (`KVFaults`)
that says which primitive operations reject.  A stored value is either a
well-formed serialized record, a string that is not valid JSON (so that
`kv.get(key, "json")` throws when reading it), or absent (the key shows up
in a listing but `get` returns `null`).  Code that the TypeScript wraps in
`try`/`catch` is embedded with `Except`, and the `catch` handlers are the
explicit `.error` branches of the embedding.
-/

namespace RedditScanner

/-- The shape of a post returned by the Reddit listing (interface
`RedditPost`, lines 168-177).  Timestamps and scores are JS numbers used as
integers, embedded as `Int`. -/
structure RedditPost where
  id : String
  title : String
  permalink : String
  created_utc : Int
  author : String
  url : String
  selftext : Option String
  score : Int
deriving DecidableEq

/-- The persisted shape (interface `StoredPost`, lines 179-189): the fields
of a `RedditPost` plus the `stored_at` stamp (epoch milliseconds). -/
structure StoredPost where
  post_id : String
  title : String
  permalink : String
  created_utc : Int
  author : String
  url : String
  selftext : Option String
  score : Int
  stored_at : Int
deriving DecidableEq

/-- A value held by the KV namespace under some key: a serialized
`StoredPost`, a blob that is not valid JSON (`kv.get(-, "json")` throws on
it), or absent (the key is listed but `get` yields `null`, as happens for
expired entries). -/
inductive KVValue where
  | record (p : StoredPost)
  | malformed
  | absent
deriving DecidableEq

/-- The KV namespace contents, modelled as an association list. -/
abbrev KV := List (String × KVValue)

/-- Fault model for the external KV service: which primitive calls reject.
A rejected call surfaces in the TypeScript as a thrown exception at the
corresponding `await`. -/
structure KVFaults where
  listFails : Bool
  getFails : String → Bool
  putFails : String → Bool
  deleteFails : String → Bool

/-- The fault-free KV service. -/
def noFaults : KVFaults :=
  { listFails := false
    getFails := fun _ => false
    putFails := fun _ => false
    deleteFails := fun _ => false }

/-- Byte-level test that `a` starts with `b`, used to model the
`{ prefix: ... }` option of `kv.list`. -/
def listIsPre : List Char → List Char → Bool
  | [], _ => true
  | _ :: _, [] => false
  | a :: as, b :: bs => decide (a = b) && listIsPre as bs

/-- String-level test that `s` starts with `pre`. -/
def strStartsWith (pre s : String) : Bool :=
  listIsPre pre.data s.data

/-- First binding of `key` in the store, if any. -/
def kvLookup : KV → String → Option KVValue
  | [], _ => none
  | (k, v) :: rest, key => if k = key then some v else kvLookup rest key

/-- Write `v` under `key`: replace the first binding of `key`, or append a
fresh binding when the key is not present. -/
def kvPutRaw : KV → String → KVValue → KV
  | [], key, v => [(key, v)]
  | (k, w) :: rest, key, v =>
    if k = key then (key, v) :: rest else (k, w) :: kvPutRaw rest key v

/-- Remove every binding of `key` from the store. -/
def kvDeleteRaw (kv : KV) (key : String) : KV :=
  kv.filter (fun e => !(decide (e.1 = key)))

/-- Model of `kv.list({ prefix })`: the keys of the store that start with
`pre`, or a rejection when the service is down. -/
def kv_list (f : KVFaults) (kv : KV) (pre : String) : Except Unit (List String) :=
  if f.listFails then Except.error ()
  else Except.ok ((kv.map Prod.fst).filter (fun k => strStartsWith pre k))

/-- Model of `kv.get(key, "json")`: `null` for a missing/absent value, the
parsed record for a well-formed value, and a thrown exception (`.error`) for
a value that is not valid JSON or when the service call rejects. -/
def kv_get (f : KVFaults) (kv : KV) (key : String) : Except Unit (Option StoredPost) :=
  if f.getFails key then Except.error ()
  else
    match kvLookup kv key with
    | none => Except.ok none
    | some KVValue.absent => Except.ok none
    | some (KVValue.record p) => Except.ok (some p)
    | some KVValue.malformed => Except.error ()

/-- Model of `kv.put(key, value)`. -/
def kv_put (f : KVFaults) (kv : KV) (key : String) (v : KVValue) : Except Unit KV :=
  if f.putFails key then Except.error () else Except.ok (kvPutRaw kv key v)

/-- Model of `kv.delete(key)`. -/
def kv_delete (f : KVFaults) (kv : KV) (key : String) : Except Unit KV :=
  if f.deleteFails key then Except.error () else Except.ok (kvDeleteRaw kv key)

/-- Outcome of the single outbound `fetch` of the notifier: the request
succeeds, returns a non-success HTTP response, or rejects (network error). -/
inductive FetchOutcome where
  | success
  | httpError
  | networkError
deriving DecidableEq

/-- How one call of `sendDiscordNotification` ended, as observable from its
logging: skipped because no webhook is configured, sent successfully,
non-success response logged, or an exception caught by the `catch` block. -/
inductive NotifyResult where
  | skippedNoWebhook
  | sent
  | httpErrorLogged
  | errorCaught
deriving DecidableEq

/-- Whether an outbound request was attempted for this result. -/
def requestAttempted : NotifyResult → Bool
  | NotifyResult.skippedNoWebhook => false
  | _ => true

/-- The embed description (lines 20-24): the post body, truncated to 300
characters with an ellipsis when too long, with a fallback line when the
body is missing or empty (`post.selftext` falsy). -/
def descriptionOf (post : RedditPost) : String :=
  match post.selftext with
  | none => "Click the link to view this post on Reddit!"
  | some t =>
    if t = "" then "Click the link to view this post on Reddit!"
    else if t.length > 300 then t.take 300 ++ "..."
    else t

/-- The image-attachment test (lines 107-114): the post URL is truthy and
matches one of the known image/host markers. -/
def shouldAttachImage (url : String) : Bool :=
  !(decide (url = "")) &&
    (listIsInfix ".jpg".data url.data || listIsInfix ".png".data url.data ||
      listIsInfix ".gif".data url.data || listIsInfix "imgur".data url.data ||
      listIsInfix "i.redd.it".data url.data)
where
  /-- Byte-level substring test modelling `String.prototype.includes`. -/
  listIsInfix (needle hay : List Char) : Bool :=
    match hay with
    | [] => needle.isEmpty
    | _ :: rest => listIsPre needle hay || listIsInfix needle rest

/-- The claim-relevant projection of the webhook payload built on lines
54-116: display name, content line, embed description and optional image. -/
structure DiscordMessage where
  username : String
  content : String
  description : String
  image : Option String
deriving DecidableEq

/-- Build the webhook payload (lines 54-116). -/
def buildDiscordMessage (post : RedditPost) : DiscordMessage :=
  { username := "Guinness Scanner"
    content := "🍺 **New post in r/guinness!**"
    description := descriptionOf post
    image := if shouldAttachImage post.url then some post.url else none }

/-- Model of the outbound `fetch(webhookUrl, ...)` on line 120: a network
error rejects, otherwise a response whose `ok` flag reflects the HTTP
status is returned. -/
def sendWebhook (outcome : FetchOutcome) : Except Unit Bool :=
  match outcome with
  | FetchOutcome.networkError => Except.error ()
  | FetchOutcome.httpError => Except.ok false
  | FetchOutcome.success => Except.ok true

/-- Embedding of `sendDiscordNotification` (lines 4-142).  A falsy webhook
URL (missing or empty) short-circuits before any outbound call; otherwise
the payload is built and posted once, the non-success response is only
logged, and the `catch` block (line 139) turns a thrown error into a normal
return.  The `Except` result type records whether the function itself can
throw to its caller. -/
def sendDiscordNotification (post : RedditPost) (webhookUrl : Option String)
    (outcome : FetchOutcome) : Except Unit NotifyResult :=
  match webhookUrl with
  | none => Except.ok NotifyResult.skippedNoWebhook
  | some u =>
    if u = "" then Except.ok NotifyResult.skippedNoWebhook
    else
      let _msg := buildDiscordMessage post
      match sendWebhook outcome with
      | Except.ok true => Except.ok NotifyResult.sent
      | Except.ok false => Except.ok NotifyResult.httpErrorLogged
      | Except.error _ => Except.ok NotifyResult.errorCaught

/-- The storage key of a post: `` `post:${post.id}` `` (line 284). -/
def postKey (post : RedditPost) : String :=
  "post:" ++ post.id

/-- The record built by `storePostInKV` (lines 270-280): every field copied
from the post, plus `stored_at := Date.now()`. -/
def mkStoredPost (post : RedditPost) (now : Int) : StoredPost :=
  { post_id := post.id
    title := post.title
    permalink := post.permalink
    created_utc := post.created_utc
    author := post.author
    url := post.url
    selftext := post.selftext
    score := post.score
    stored_at := now }

/-- Embedding of `storePostInKV` (lines 267-289): build the record, then
`kv.put` it under `postKey`; a put failure is caught and logged, leaving
the store unchanged. -/
def storePostInKV (f : KVFaults) (now : Int) (post : RedditPost) (kv : KV) : KV :=
  let storedPost := mkStoredPost post now
  match kv_put f kv (postKey post) (KVValue.record storedPost) with
  | Except.ok kv2 => kv2
  | Except.error _ => kv

/-- The fetch loop of `getPostsFromKV` (lines 249-254): `kv.get` each listed
key, pushing every non-null value; an exception propagates out of the
loop. -/
def getPostsLoop (f : KVFaults) (kv : KV) : List String → Except Unit (List StoredPost)
  | [] => Except.ok []
  | k :: ks =>
    match kv_get f kv k with
    | Except.error e => Except.error e
    | Except.ok none => getPostsLoop f kv ks
    | Except.ok (some p) =>
      match getPostsLoop f kv ks with
      | Except.error e => Except.error e
      | Except.ok rest => Except.ok (p :: rest)

/-- Embedding of `getPostsFromKV` (lines 240-262): list the keys under
`"post:"`, fetch each value; the surrounding `try`/`catch` (lines 243-261)
turns any exception — from the listing or from any single `get` — into the
empty result. -/
def getPostsFromKV (f : KVFaults) (kv : KV) : List StoredPost :=
  match
    match kv_list f kv "post:" with
    | Except.error e => Except.error e
    | Except.ok keys => getPostsLoop f kv keys
  with
  | Except.ok posts => posts
  | Except.error _ => []

/-- The dedup filter of `scheduled` (lines 211-214): keep the fetched posts
whose id no stored post carries. -/
def newPostsOf (posts : List RedditPost) (storedPosts : List StoredPost) : List RedditPost :=
  posts.filter (fun post => !(storedPosts.any (fun storedPost => decide (storedPost.post_id = post.id))))

/-- The per-item loop of `scheduled` (lines 218-227): store the post, then
send the notification, sequentially; an exception from either `await`
propagates (to the outer `try` of `scheduled`).  The list of notification
results records the notifier's observable behaviour per item. -/
def ingestLoop (f : KVFaults) (now : Int) (webhookUrl : Option String)
    (outcome : RedditPost → FetchOutcome) :
    List RedditPost → KV → Except Unit (KV × List NotifyResult)
  | [], kv => Except.ok (kv, [])
  | post :: rest, kv =>
    let kv2 := storePostInKV f now post kv
    match sendDiscordNotification post webhookUrl (outcome post) with
    | Except.error e => Except.error e
    | Except.ok r =>
      match ingestLoop f now webhookUrl outcome rest kv2 with
      | Except.error e => Except.error e
      | Except.ok (kv3, rs) => Except.ok (kv3, r :: rs)

/-- The ingest step of `scheduled` (lines 206-227): load the stored posts,
filter the fetched candidates against them, and run the per-item
store-and-notify loop. -/
def ingestRun (f : KVFaults) (now : Int) (webhookUrl : Option String)
    (outcome : RedditPost → FetchOutcome) (posts : List RedditPost) (kv : KV) :
    Except Unit (KV × List NotifyResult) :=
  let storedPosts := getPostsFromKV f kv
  let newPosts := newPostsOf posts storedPosts
  ingestLoop f now webhookUrl outcome newPosts kv

/-- The loop of `cleanupOldPosts` (lines 307-315): `get` each listed key
and `delete` it when its record is older than the cutoff, counting the
deletions.  An exception escapes the loop carrying the store state reached
so far (the deletions already performed persist). -/
def cleanupLoop (f : KVFaults) (cutoffTime : Int) : List String → KV → Except KV (KV × Nat)
  | [], kv => Except.ok (kv, 0)
  | k :: ks, kv =>
    match kv_get f kv k with
    | Except.error _ => Except.error kv
    | Except.ok none => cleanupLoop f cutoffTime ks kv
    | Except.ok (some p) =>
      if p.stored_at < cutoffTime then
        match kv_delete f kv k with
        | Except.error _ => Except.error kv
        | Except.ok kv2 =>
          match cleanupLoop f cutoffTime ks kv2 with
          | Except.error kvE => Except.error kvE
          | Except.ok (kv3, n) => Except.ok (kv3, n + 1)
      else cleanupLoop f cutoffTime ks kv

/-- Embedding of `cleanupOldPosts` (lines 294-321).  The cutoff is
`Date.now() - maxAgeDays * 24 * 60 * 60 * 1000`.  The `try`/`catch`
(lines 303-320) wraps the whole listing and loop, so any exception ends
the sweep with whatever deletions already happened; the completion log with
the deleted count only runs when no exception occurred, which the second
component models by `some count` / `none`. -/
def cleanupOldPosts (f : KVFaults) (now : Int) (maxAgeDays : Int) (kv : KV) :
    KV × Option Nat :=
  let maxAgeMs := maxAgeDays * 24 * 60 * 60 * 1000
  let cutoffTime := now - maxAgeMs
  match kv_list f kv "post:" with
  | Except.error _ => (kv, none)
  | Except.ok keys =>
    match cleanupLoop f cutoffTime keys kv with
    | Except.ok (kv2, n) => (kv2, some n)
    | Except.error kvE => (kvE, none)

/-- The whole per-tick pipeline of `scheduled` (lines 192-234), given the
posts the feed returned: ingest, then the retention sweep. -/
def scheduledRun (f : KVFaults) (now : Int) (webhookUrl : Option String)
    (outcome : RedditPost → FetchOutcome) (posts : List RedditPost) (kv : KV) :
    KV × Option Nat :=
  match ingestRun f now webhookUrl outcome posts kv with
  | Except.error _ => (kv, none)
  | Except.ok (kv2, _) => cleanupOldPosts f now 30 kv2

/-! ### Derived views of the store, well-formedness, and spec-side definitions -/

/-- The records held in the store (ignoring absent and malformed values). -/
def recordsOf (kv : KV) : List StoredPost :=
  kv.filterMap (fun e =>
    match e.2 with
    | KVValue.record p => some p
    | _ => none)

/-- The identifiers of the records held in the store. -/
def idsOf (kv : KV) : List String :=
  (recordsOf kv).map StoredPost.post_id

/-- A binding respects the persisted-state layout: a serialized record
stored under the key derived from its identifier. -/
def entryOK (e : String × KVValue) : Bool :=
  match e.2 with
  | KVValue.record p => decide (e.1 = "post:" ++ p.post_id)
  | _ => false

/-- The store is well formed: distinct keys, and every binding is a record
under its derived key — the invariant the writer `storePostInKV`
maintains. -/
def WFkv (kv : KV) : Prop :=
  (kv.map Prod.fst).Nodup ∧ ∀ e ∈ kv, entryOK e = true

instance : DecidablePred WFkv := fun _ =>
  inferInstanceAs (Decidable (_ ∧ _))

/-- The bindings the sweeper keeps at a given cutoff: records at least as
recent as the cutoff; non-record values are never deleted. -/
def keepEntry (cutoffTime : Int) (e : String × KVValue) : Bool :=
  match e.2 with
  | KVValue.record p => !(decide (p.stored_at < cutoffTime))
  | _ => true

/-- The cumulative store effect of the ingest loop: persist each post in
sequence. -/
def storeAll (f : KVFaults) (now : Int) (posts : List RedditPost) (kv : KV) : KV :=
  posts.foldl (fun acc post => storePostInKV f now post acc) kv

/-- The notification result `sendDiscordNotification` produces for a given
webhook configuration and outcome of the outbound call. -/
def notifyResultOf (webhookUrl : Option String) (outcome : FetchOutcome) : NotifyResult :=
  match webhookUrl with
  | none => NotifyResult.skippedNoWebhook
  | some u =>
    if u = "" then NotifyResult.skippedNoWebhook
    else
      match outcome with
      | FetchOutcome.success => NotifyResult.sent
      | FetchOutcome.httpError => NotifyResult.httpErrorLogged
      | FetchOutcome.networkError => NotifyResult.errorCaught

/-- Modelled from the spec's words for the dedup contract (`new_items =
candidates where identifier not in stored identifiers`), to be compared
with the filter the code computes. -/
def specNewItems (candidates : List RedditPost) (storedIds : List String) : List RedditPost :=
  candidates.filter (fun c => !(decide (c.id ∈ storedIds)))

/-- The record read back for a key, as `getPostsFromKV` and the sweeper see
it through `kv.get(-, "json")`. -/
def lookupRecord (kv : KV) (k : String) : Option StoredPost :=
  match kvLookup kv k with
  | some (KVValue.record p) => some p
  | _ => none

/-- A store binding holding a record under its derived key. -/
def recEntry (p : StoredPost) : String × KVValue :=
  ("post:" ++ p.post_id, KVValue.record p)

/-- A concrete feed item used to instantiate the theorems. -/
def samplePost (i : String) : RedditPost :=
  { id := i
    title := "title"
    permalink := "/r/guinness/x"
    created_utc := 10
    author := "dan"
    url := ""
    selftext := none
    score := 3 }

/-- A concrete stored record with a chosen identifier and `stored_at`. -/
def sampleStored (i : String) (ts : Int) : StoredPost :=
  mkStoredPost (samplePost i) ts

/-- A KV service whose listing call rejects. -/
def listFault : KVFaults :=
  { listFails := true
    getFails := fun _ => false
    putFails := fun _ => false
    deleteFails := fun _ => false }

/-- A KV service where only the `put` of key `"post:b"` rejects. -/
def putFaultB : KVFaults :=
  { listFails := false
    getFails := fun _ => false
    putFails := fun k => decide (k = "post:b")
    deleteFails := fun _ => false }

/-- A KV service where only the `delete` of key `"post:b"` rejects. -/
def deleteFaultB : KVFaults :=
  { listFails := false
    getFails := fun _ => false
    putFails := fun _ => false
    deleteFails := fun k => decide (k = "post:b") }

/-! ### String and association-list lemmas -/

theorem listIsPre_append (l m : List Char) : listIsPre l (l ++ m) = true := by
  induction l with
  | nil => rfl
  | cons a as ih => simp [listIsPre, ih]

theorem strStartsWith_append (pre s : String) : strStartsWith pre (pre ++ s) = true := by
  unfold strStartsWith
  rw [String.data_append]
  exact listIsPre_append _ _

theorem string_append_left_cancel {s a b : String} (h : s ++ a = s ++ b) : a = b := by
  have hd : (s ++ a).data = (s ++ b).data := congrArg String.data h
  rw [String.data_append, String.data_append] at hd
  exact String.ext (List.append_cancel_left hd)

theorem postKey_ne_of_id_ne {a b : RedditPost} (h : a.id ≠ b.id) : postKey a ≠ postKey b :=
  fun hk => h (string_append_left_cancel hk)

theorem kvLookup_put_self (kv : KV) (key : String) (v : KVValue) :
    kvLookup (kvPutRaw kv key v) key = some v := by
  induction kv with
  | nil => simp [kvPutRaw, kvLookup]
  | cons e rest ih =>
    by_cases h : e.1 = key
    · simp [kvPutRaw, h, kvLookup]
    · simp [kvPutRaw, h, kvLookup, ih]

theorem kvLookup_put_ne (kv : KV) {key key' : String} (v : KVValue) (h : key' ≠ key) :
    kvLookup (kvPutRaw kv key v) key' = kvLookup kv key' := by
  have hne : ¬(key = key') := fun hh => h hh.symm
  induction kv with
  | nil => simp [kvPutRaw, kvLookup, hne]
  | cons e rest ih =>
    obtain ⟨k, w⟩ := e
    by_cases he : k = key
    · subst he
      simp [kvPutRaw, kvLookup, hne]
    · by_cases he' : k = key'
      · simp [kvPutRaw, he, kvLookup, he', h]
      · simp [kvPutRaw, he, kvLookup, he', ih]

theorem kvLookup_of_mem_nodup {kv : KV} {e : String × KVValue}
    (hnd : (kv.map Prod.fst).Nodup) (hm : e ∈ kv) : kvLookup kv e.1 = some e.2 := by
  induction kv with
  | nil => cases hm
  | cons x rest ih =>
    rw [List.map_cons, List.nodup_cons] at hnd
    rcases List.mem_cons.mp hm with heq | hmem
    · subst heq
      simp [kvLookup]
    · have hx : ¬(x.1 = e.1) := by
        intro hh
        exact hnd.1 (hh ▸ List.mem_map.mpr ⟨e, hmem, rfl⟩)
      obtain ⟨k, w⟩ := x
      simp only [kvLookup, if_neg hx]
      exact ih hnd.2 hmem

theorem mem_of_kvLookup {kv : KV} {key : String} {v : KVValue}
    (h : kvLookup kv key = some v) : (key, v) ∈ kv := by
  induction kv with
  | nil => simp [kvLookup] at h
  | cons x rest ih =>
    obtain ⟨k, w⟩ := x
    by_cases hx : k = key
    · subst hx
      have hwv : w = v := by simpa [kvLookup] using h
      subst hwv
      exact List.mem_cons_self _ _
    · simp only [kvLookup, if_neg hx] at h
      exact List.mem_cons_of_mem _ (ih h)

theorem mem_put_elim {kv : KV} {key : String} {v : KVValue} {e : String × KVValue}
    (h : e ∈ kvPutRaw kv key v) : e = (key, v) ∨ e ∈ kv := by
  induction kv with
  | nil => simpa [kvPutRaw] using h
  | cons x rest ih =>
    obtain ⟨k, w⟩ := x
    by_cases hx : k = key
    · simp only [kvPutRaw, if_pos hx] at h
      rcases List.mem_cons.mp h with heq | hmem
      · exact Or.inl heq
      · exact Or.inr (List.mem_cons_of_mem _ hmem)
    · simp only [kvPutRaw, if_neg hx] at h
      rcases List.mem_cons.mp h with heq | hmem
      · exact Or.inr (heq ▸ List.mem_cons_self _ _)
      · rcases ih hmem with h' | h'
        · exact Or.inl h'
        · exact Or.inr (List.mem_cons_of_mem _ h')

theorem mem_put_self (kv : KV) (key : String) (v : KVValue) :
    (key, v) ∈ kvPutRaw kv key v := by
  induction kv with
  | nil => simp [kvPutRaw]
  | cons x rest ih =>
    obtain ⟨k, w⟩ := x
    by_cases hx : k = key
    · simp [kvPutRaw, hx]
    · simp only [kvPutRaw, if_neg hx]
      exact List.mem_cons_of_mem _ ih

theorem keys_put_mem {kv : KV} {key : String} (v : KVValue)
    (h : key ∈ kv.map Prod.fst) : (kvPutRaw kv key v).map Prod.fst = kv.map Prod.fst := by
  induction kv with
  | nil => simp at h
  | cons x rest ih =>
    obtain ⟨k, w⟩ := x
    by_cases hx : k = key
    · subst hx
      simp [kvPutRaw]
    · have hmem : key ∈ rest.map Prod.fst := by
        rcases List.mem_cons.mp h with heq | hmem
        · exact absurd heq.symm hx
        · exact hmem
      simp [kvPutRaw, hx, ih hmem]

theorem keys_put_not_mem {kv : KV} {key : String} (v : KVValue)
    (h : key ∉ kv.map Prod.fst) :
    (kvPutRaw kv key v).map Prod.fst = kv.map Prod.fst ++ [key] := by
  induction kv with
  | nil => simp [kvPutRaw]
  | cons x rest ih =>
    obtain ⟨k, w⟩ := x
    have hx : ¬(k = key) := fun hh => h (by simp [hh])
    have hrest : key ∉ rest.map Prod.fst := fun hh => h (by simp [hh])
    simp [kvPutRaw, hx, ih hrest]

theorem nodup_keys_put {kv : KV} {key : String} (v : KVValue)
    (h : (kv.map Prod.fst).Nodup) : ((kvPutRaw kv key v).map Prod.fst).Nodup := by
  by_cases hmem : key ∈ kv.map Prod.fst
  · rw [keys_put_mem v hmem]
    exact h
  · rw [keys_put_not_mem v hmem]
    simp [List.nodup_append, h, hmem]

theorem count_keys_put {kv : KV} (key : String) (v : KVValue)
    (h : (kv.map Prod.fst).Nodup) :
    List.count key ((kvPutRaw kv key v).map Prod.fst) = 1 :=
  List.count_eq_one_of_mem (nodup_keys_put v h)
    (List.mem_map.mpr ⟨(key, v), mem_put_self kv key v, rfl⟩)

theorem WFkv_cons {e : String × KVValue} {kv : KV} :
    WFkv (e :: kv) ↔ e.1 ∉ kv.map Prod.fst ∧ entryOK e = true ∧ WFkv kv := by
  simp only [WFkv, List.map_cons, List.nodup_cons, List.forall_mem_cons]
  tauto

theorem entryOK_record {e : String × KVValue} (h : entryOK e = true) :
    ∃ p : StoredPost, e.2 = KVValue.record p ∧ e.1 = "post:" ++ p.post_id := by
  obtain ⟨k, w⟩ := e
  cases w with
  | record p =>
    refine ⟨p, rfl, ?_⟩
    simpa [entryOK] using h
  | malformed => simp [entryOK] at h
  | absent => simp [entryOK] at h

theorem WF_put {kv : KV} {key : String} {v : KVValue}
    (hwf : WFkv kv) (hok : entryOK (key, v) = true) : WFkv (kvPutRaw kv key v) := by
  refine ⟨nodup_keys_put v hwf.1, ?_⟩
  intro e he
  rcases mem_put_elim he with rfl | he'
  · exact hok
  · exact hwf.2 e he'

theorem filterMap_congr_mem {α β : Type} {f g : α → Option β} :
    ∀ {l : List α}, (∀ a ∈ l, f a = g a) → l.filterMap f = l.filterMap g
  | [], _ => rfl
  | a :: l, h => by
    have hh := h a (List.mem_cons_self a l)
    simp only [List.filterMap_cons, hh,
      filterMap_congr_mem (fun x hx => h x (List.mem_cons_of_mem a hx))]

theorem getPostsLoop_ok {f : KVFaults} {kv : KV} :
    ∀ {keys : List String}, (∀ k ∈ keys, f.getFails k = false) →
      (∀ k ∈ keys, kvLookup kv k ≠ some KVValue.malformed) →
      getPostsLoop f kv keys = Except.ok (keys.filterMap (lookupRecord kv))
  | [], _, _ => rfl
  | k :: ks, hg, hm => by
    have hgk : f.getFails k = false := hg k (List.mem_cons_self k ks)
    have hmk := hm k (List.mem_cons_self k ks)
    have ih := @getPostsLoop_ok f kv ks
      (fun x hx => hg x (List.mem_cons_of_mem k hx))
      (fun x hx => hm x (List.mem_cons_of_mem k hx))
    simp only [getPostsLoop, kv_get, hgk, Bool.false_eq_true, if_false, List.filterMap_cons]
    cases hl : kvLookup kv k with
    | none => simp [ih, lookupRecord, hl]
    | some v =>
      cases v with
      | record p => simp [ih, lookupRecord, hl]
      | malformed => exact absurd hl hmk
      | absent => simp [ih, lookupRecord, hl]

theorem getPostsLoop_error {f : KVFaults} {kv : KV} :
    ∀ {keys : List String}, (∀ k ∈ keys, f.getFails k = false) →
      (∃ k ∈ keys, kvLookup kv k = some KVValue.malformed) →
      getPostsLoop f kv keys = Except.error ()
  | [], _, hm => by simp at hm
  | k :: ks, hg, hm => by
    have hgk : f.getFails k = false := hg k (List.mem_cons_self k ks)
    simp only [getPostsLoop, kv_get, hgk, Bool.false_eq_true, if_false]
    cases hl : kvLookup kv k with
    | none =>
      have hm' : ∃ x ∈ ks, kvLookup kv x = some KVValue.malformed := by
        rcases hm with ⟨x, hx, hxm⟩
        rcases List.mem_cons.mp hx with rfl | hx'
        · exact absurd hxm (by simp [hl])
        · exact ⟨x, hx', hxm⟩
      exact getPostsLoop_error (fun x hx => hg x (List.mem_cons_of_mem k hx)) hm'
    | some v =>
      cases v with
      | record p =>
        have hm' : ∃ x ∈ ks, kvLookup kv x = some KVValue.malformed := by
          rcases hm with ⟨x, hx, hxm⟩
          rcases List.mem_cons.mp hx with rfl | hx'
          · exact absurd hxm (by simp [hl])
          · exact ⟨x, hx', hxm⟩
        rw [getPostsLoop_error (fun x hx => hg x (List.mem_cons_of_mem k hx)) hm']
      | malformed => rfl
      | absent =>
        have hm' : ∃ x ∈ ks, kvLookup kv x = some KVValue.malformed := by
          rcases hm with ⟨x, hx, hxm⟩
          rcases List.mem_cons.mp hx with rfl | hx'
          · exact absurd hxm (by simp [hl])
          · exact ⟨x, hx', hxm⟩
        exact getPostsLoop_error (fun x hx => hg x (List.mem_cons_of_mem k hx)) hm'

theorem kv_list_wf {kv : KV} (hwf : ∀ e ∈ kv, entryOK e = true) :
    kv_list noFaults kv "post:" = Except.ok (kv.map Prod.fst) := by
  simp only [kv_list, noFaults, Bool.false_eq_true, if_false, Except.ok.injEq]
  rw [List.filter_eq_self]
  intro k hk
  rcases List.mem_map.mp hk with ⟨e, he, rfl⟩
  rcases entryOK_record (hwf e he) with ⟨p, _, hkey⟩
  rw [hkey]
  exact strStartsWith_append _ _

theorem filterMap_keys_noMal :
    ∀ {kv : KV}, (kv.map Prod.fst).Nodup → (∀ e ∈ kv, e.2 ≠ KVValue.malformed) →
      (kv.map Prod.fst).filterMap (lookupRecord kv) = recordsOf kv
  | [], _, _ => rfl
  | e :: rest, hnd, hm => by
    obtain ⟨k, w⟩ := e
    rw [List.map_cons, List.nodup_cons] at hnd
    have htail : ∀ x ∈ rest.map Prod.fst,
        lookupRecord ((k, w) :: rest) x = lookupRecord rest x := by
      intro x hx
      have hne : ¬(k = x) := fun hh => hnd.1 (hh ▸ hx)
      simp [lookupRecord, kvLookup, hne]
    have ih := filterMap_keys_noMal hnd.2
      (fun x hx => hm x (List.mem_cons_of_mem _ hx))
    cases w with
    | record p =>
      have hhead : lookupRecord ((k, KVValue.record p) :: rest) k = some p := by
        simp [lookupRecord, kvLookup]
      simp only [List.map_cons, List.filterMap_cons, hhead]
      rw [filterMap_congr_mem htail, ih]
      simp [recordsOf]
    | malformed => exact absurd rfl (hm (k, KVValue.malformed) (List.mem_cons_self _ _))
    | absent =>
      have hhead : lookupRecord ((k, KVValue.absent) :: rest) k = none := by
        simp [lookupRecord, kvLookup]
      simp only [List.map_cons, List.filterMap_cons, hhead]
      rw [filterMap_congr_mem htail, ih]
      simp [recordsOf]

theorem kv_list_noMal {kv : KV}
    (hpre : ∀ k ∈ kv.map Prod.fst, strStartsWith "post:" k = true) :
    kv_list noFaults kv "post:" = Except.ok (kv.map Prod.fst) := by
  simp only [kv_list, noFaults, Bool.false_eq_true, if_false, Except.ok.injEq]
  exact List.filter_eq_self.mpr hpre

theorem getPostsFromKV_noMal {kv : KV} (hnd : (kv.map Prod.fst).Nodup)
    (hpre : ∀ k ∈ kv.map Prod.fst, strStartsWith "post:" k = true)
    (hm : ∀ e ∈ kv, e.2 ≠ KVValue.malformed) :
    getPostsFromKV noFaults kv = recordsOf kv := by
  have hnm : ∀ k ∈ kv.map Prod.fst, kvLookup kv k ≠ some KVValue.malformed := by
    intro k hk hbad
    exact hm _ (mem_of_kvLookup hbad) rfl
  rw [getPostsFromKV]
  simp only [kv_list_noMal hpre]
  simp only [@getPostsLoop_ok noFaults kv (kv.map Prod.fst) (fun _ _ => rfl) hnm]
  rw [filterMap_keys_noMal hnd hm]

theorem WF_keys_pre {kv : KV} (hwf : WFkv kv) :
    ∀ k ∈ kv.map Prod.fst, strStartsWith "post:" k = true := by
  intro k hk
  rcases List.mem_map.mp hk with ⟨e, he, rfl⟩
  rcases entryOK_record (hwf.2 e he) with ⟨p, _, hkey⟩
  rw [hkey]
  exact strStartsWith_append _ _

theorem WF_noMal {kv : KV} (hwf : WFkv kv) :
    ∀ e ∈ kv, e.2 ≠ KVValue.malformed := by
  intro e he hbad
  rcases entryOK_record (hwf.2 e he) with ⟨p, hval, _⟩
  rw [hbad] at hval
  cases hval

theorem getPostsFromKV_wf {kv : KV} (hwf : WFkv kv) :
    getPostsFromKV noFaults kv = recordsOf kv :=
  getPostsFromKV_noMal hwf.1 (WF_keys_pre hwf) (WF_noMal hwf)

theorem getPostsFromKV_malformed {kv : KV} (hnd : (kv.map Prod.fst).Nodup)
    (hpre : ∀ k ∈ kv.map Prod.fst, strStartsWith "post:" k = true)
    (hbad : ∃ e ∈ kv, e.2 = KVValue.malformed) :
    getPostsFromKV noFaults kv = [] := by
  rcases hbad with ⟨e, he, hval⟩
  have hlook : kvLookup kv e.1 = some KVValue.malformed := by
    rw [kvLookup_of_mem_nodup hnd he, hval]
  have hmem : e.1 ∈ kv.map Prod.fst := List.mem_map.mpr ⟨e, he, rfl⟩
  rw [getPostsFromKV]
  simp only [kv_list_noMal hpre]
  rw [getPostsLoop_error (fun _ _ => rfl) ⟨e.1, hmem, hlook⟩]

/-! ### Notifier and ingest-loop lemmas -/

theorem send_ok (post : RedditPost) (webhookUrl : Option String) (outcome : FetchOutcome) :
    sendDiscordNotification post webhookUrl outcome = Except.ok (notifyResultOf webhookUrl outcome) := by
  cases webhookUrl with
  | none => rfl
  | some u =>
    by_cases hu : u = ""
    · simp [sendDiscordNotification, notifyResultOf, hu]
    · cases outcome <;>
        simp [sendDiscordNotification, notifyResultOf, sendWebhook, hu]

theorem storePostInKV_eq_put {f : KVFaults} (now : Int) (post : RedditPost) (kv : KV)
    (h : f.putFails (postKey post) = false) :
    storePostInKV f now post kv =
      kvPutRaw kv (postKey post) (KVValue.record (mkStoredPost post now)) := by
  simp [storePostInKV, kv_put, h]

theorem storePostInKV_fail {f : KVFaults} (now : Int) (post : RedditPost) (kv : KV)
    (h : f.putFails (postKey post) = true) : storePostInKV f now post kv = kv := by
  simp [storePostInKV, kv_put, h]

theorem ingestLoop_ok (f : KVFaults) (now : Int) (webhookUrl : Option String)
    (outcome : RedditPost → FetchOutcome) :
    ∀ (posts : List RedditPost) (kv : KV),
      ingestLoop f now webhookUrl outcome posts kv =
        Except.ok (storeAll f now posts kv,
          posts.map (fun post => notifyResultOf webhookUrl (outcome post)))
  | [], kv => rfl
  | post :: rest, kv => by
    simp only [ingestLoop, send_ok,
      ingestLoop_ok f now webhookUrl outcome rest (storePostInKV f now post kv)]
    rfl

theorem entryOK_mkStored (post : RedditPost) (now : Int) :
    entryOK (postKey post, KVValue.record (mkStoredPost post now)) = true := by
  simp [entryOK, postKey, mkStoredPost]

theorem WF_store {f : KVFaults} {kv : KV} (now : Int) (post : RedditPost)
    (hwf : WFkv kv) : WFkv (storePostInKV f now post kv) := by
  cases h : f.putFails (postKey post) with
  | true => rw [storePostInKV_fail now post kv h]; exact hwf
  | false =>
    rw [storePostInKV_eq_put now post kv h]
    exact WF_put hwf (entryOK_mkStored post now)

theorem WF_storeAll {f : KVFaults} (now : Int) :
    ∀ (posts : List RedditPost) {kv : KV}, WFkv kv → WFkv (storeAll f now posts kv)
  | [], _, hwf => hwf
  | post :: rest, kv, hwf =>
    WF_storeAll now rest (WF_store now post hwf)

theorem mem_idsOf_of_mem {kv : KV} {k : String} {p : StoredPost}
    (h : (k, KVValue.record p) ∈ kv) : p.post_id ∈ idsOf kv := by
  apply List.mem_map.mpr
  refine ⟨p, ?_, rfl⟩
  apply List.mem_filterMap.mpr
  exact ⟨(k, KVValue.record p), h, rfl⟩

theorem idsOf_put_mono {kv : KV} {x : String} (r : StoredPost)
    (hwf : WFkv kv) (h : x ∈ idsOf kv) :
    x ∈ idsOf (kvPutRaw kv ("post:" ++ r.post_id) (KVValue.record r)) := by
  induction kv with
  | nil => simp [idsOf, recordsOf] at h
  | cons e rest ih =>
    rcases WFkv_cons.mp hwf with ⟨_, hok, hwfr⟩
    rcases entryOK_record hok with ⟨q, hval, hkey⟩
    obtain ⟨k, w⟩ := e
    simp only at hval hkey
    subst hval hkey
    by_cases hk : ("post:" ++ q.post_id : String) = "post:" ++ r.post_id
    · have hq : q.post_id = r.post_id := string_append_left_cancel hk
      simp only [kvPutRaw, if_pos hk]
      simp only [idsOf, recordsOf, List.filterMap_cons, List.map_cons] at h ⊢
      rcases List.mem_cons.mp h with rfl | h'
      · exact hq ▸ List.mem_cons_self _ _
      · exact List.mem_cons_of_mem _ h'
    · simp only [kvPutRaw, if_neg hk]
      simp only [idsOf, recordsOf, List.filterMap_cons, List.map_cons] at h ⊢
      rcases List.mem_cons.mp h with rfl | h'
      · exact List.mem_cons_self _ _
      · exact List.mem_cons_of_mem _ (ih hwfr h')

theorem idsOf_put_self (kv : KV) (r : StoredPost) :
    r.post_id ∈ idsOf (kvPutRaw kv ("post:" ++ r.post_id) (KVValue.record r)) :=
  mem_idsOf_of_mem (mem_put_self kv _ _)

theorem ids_store_mono {f : KVFaults} {kv : KV} {x : String} (now : Int) (post : RedditPost)
    (hwf : WFkv kv) (h : x ∈ idsOf kv) : x ∈ idsOf (storePostInKV f now post kv) := by
  cases hp : f.putFails (postKey post) with
  | true => rw [storePostInKV_fail now post kv hp]; exact h
  | false =>
    rw [storePostInKV_eq_put now post kv hp]
    exact idsOf_put_mono (mkStoredPost post now) hwf h

theorem ids_store_self {f : KVFaults} (now : Int) (post : RedditPost) (kv : KV)
    (hp : f.putFails (postKey post) = false) :
    post.id ∈ idsOf (storePostInKV f now post kv) := by
  rw [storePostInKV_eq_put now post kv hp]
  exact idsOf_put_self kv (mkStoredPost post now)

theorem ids_storeAll_mono {f : KVFaults} (now : Int) :
    ∀ (posts : List RedditPost) {kv : KV} {x : String},
      WFkv kv → x ∈ idsOf kv → x ∈ idsOf (storeAll f now posts kv)
  | [], _, _, _, h => h
  | post :: rest, kv, x, hwf, h =>
    ids_storeAll_mono now rest (WF_store now post hwf)
      (ids_store_mono now post hwf h)

theorem ids_storeAll_self (now : Int) :
    ∀ (posts : List RedditPost) {kv : KV} {post : RedditPost},
      WFkv kv → post ∈ posts → post.id ∈ idsOf (storeAll noFaults now posts kv)
  | [], _, _, _, hmem => absurd hmem (List.not_mem_nil _)
  | q :: rest, kv, post, hwf, hmem => by
    rcases List.mem_cons.mp hmem with rfl | hmem'
    · exact ids_storeAll_mono now rest (WF_store now post hwf)
        (ids_store_self now post kv rfl)
    · exact ids_storeAll_self now rest (WF_store now q hwf) hmem'

theorem mem_idsOf_iff_any {kv : KV} {i : String} :
    i ∈ idsOf kv ↔
      (recordsOf kv).any (fun storedPost => decide (storedPost.post_id = i)) = true := by
  simp [idsOf, List.any_eq_true, List.mem_map]

/-! ### Sweeper lemmas -/

theorem kvDeleteRaw_not_mem {kv : KV} {key : String} (h : key ∉ kv.map Prod.fst) :
    kvDeleteRaw kv key = kv := by
  rw [kvDeleteRaw, List.filter_eq_self]
  intro e he
  have : e.1 ≠ key := fun hh => h (hh ▸ List.mem_map.mpr ⟨e, he, rfl⟩)
  simpa using this

theorem kv_delete_noFaults (kv : KV) (key : String) :
    kv_delete noFaults kv key = Except.ok (kvDeleteRaw kv key) := rfl

theorem cleanupLoop_cons (f : KVFaults) (cutoffTime : Int) (k : String)
    (ks : List String) (kv : KV) :
    cleanupLoop f cutoffTime (k :: ks) kv =
      match kv_get f kv k with
      | Except.error _ => Except.error kv
      | Except.ok none => cleanupLoop f cutoffTime ks kv
      | Except.ok (some p) =>
        if p.stored_at < cutoffTime then
          match kv_delete f kv k with
          | Except.error _ => Except.error kv
          | Except.ok kv2 =>
            match cleanupLoop f cutoffTime ks kv2 with
            | Except.error kvE => Except.error kvE
            | Except.ok (kv3, n) => Except.ok (kv3, n + 1)
        else cleanupLoop f cutoffTime ks kv := rfl

theorem cleanupLoop_skip (f : KVFaults) (cutoffTime : Int) :
    ∀ (keys : List String) (k : String) (v : KVValue) (kv : KV), k ∉ keys →
      cleanupLoop f cutoffTime keys ((k, v) :: kv) =
        match cleanupLoop f cutoffTime keys kv with
        | Except.ok (kv2, n) => Except.ok ((k, v) :: kv2, n)
        | Except.error kvE => Except.error ((k, v) :: kvE)
  | [], k, v, kv, _ => rfl
  | k' :: ks, k, v, kv, h => by
    have hk' : k' ≠ k := fun hh => h (hh ▸ List.mem_cons_self k' ks)
    have hks : k ∉ ks := fun hh => h (List.mem_cons_of_mem k' hh)
    have hkk' : ¬(k = k') := fun hh => hk' hh.symm
    simp only [cleanupLoop, kv_get, kvLookup, if_neg hkk']
    cases hgf : f.getFails k' with
    | true => simp
    | false =>
      simp only [Bool.false_eq_true, if_false]
      cases hl : kvLookup kv k' with
      | none => exact cleanupLoop_skip f cutoffTime ks k v kv hks
      | some w =>
        cases w with
        | absent => exact cleanupLoop_skip f cutoffTime ks k v kv hks
        | malformed => simp
        | record p =>
          by_cases hlt : p.stored_at < cutoffTime
          · simp only [if_pos hlt, kv_delete]
            cases hdf : f.deleteFails k' with
            | true => simp
            | false =>
              simp only [Bool.false_eq_true, if_false]
              have hdel : kvDeleteRaw ((k, v) :: kv) k' = (k, v) :: kvDeleteRaw kv k' := by
                simp [kvDeleteRaw, List.filter_cons, hkk']
              rw [hdel, cleanupLoop_skip f cutoffTime ks k v (kvDeleteRaw kv k') hks]
              cases cleanupLoop f cutoffTime ks (kvDeleteRaw kv k') with
              | error kvE => simp
              | ok r =>
                obtain ⟨kv3, n⟩ := r
                simp
          · simp only [if_neg hlt]
            exact cleanupLoop_skip f cutoffTime ks k v kv hks

theorem cleanupLoop_wf (cutoffTime : Int) :
    ∀ {kv : KV}, WFkv kv →
      cleanupLoop noFaults cutoffTime (kv.map Prod.fst) kv =
        Except.ok (kv.filter (keepEntry cutoffTime),
          (recordsOf kv).countP (fun p => decide (p.stored_at < cutoffTime)))
  | [], _ => rfl
  | e :: rest, hwf => by
    rcases WFkv_cons.mp hwf with ⟨hnotin, hok, hwfr⟩
    rcases entryOK_record hok with ⟨q, hval, hkey⟩
    obtain ⟨k, w⟩ := e
    simp only at hval hkey
    subst hval
    have hget : kv_get noFaults ((k, KVValue.record q) :: rest) k =
        Except.ok (some q) := by
      simp [kv_get, noFaults, kvLookup]
    simp only [List.map_cons, cleanupLoop, hget]
    by_cases hlt : q.stored_at < cutoffTime
    · simp only [if_pos hlt, kv_delete_noFaults]
      have hdel : kvDeleteRaw ((k, KVValue.record q) :: rest) k = rest := by
        simp only [kvDeleteRaw, List.filter_cons, decide_eq_true_eq]
        rw [if_neg (by simp)]
        exact kvDeleteRaw_not_mem hnotin
      rw [hdel, cleanupLoop_wf cutoffTime hwfr]
      have hkeep : keepEntry cutoffTime (k, KVValue.record q) = false := by
        simp [keepEntry, hlt]
      have hcount : (recordsOf ((k, KVValue.record q) :: rest)).countP
          (fun p => decide (p.stored_at < cutoffTime)) =
          (recordsOf rest).countP (fun p => decide (p.stored_at < cutoffTime)) + 1 := by
        simp only [recordsOf, List.filterMap_cons]
        exact List.countP_cons_of_pos _ _ (by simp [hlt])
      simp [List.filter_cons, hkeep, hcount]
    · simp only [if_neg hlt]
      rw [cleanupLoop_skip noFaults cutoffTime (rest.map Prod.fst) k
        (KVValue.record q) rest hnotin, cleanupLoop_wf cutoffTime hwfr]
      have hkeep : keepEntry cutoffTime (k, KVValue.record q) = true := by
        simp [keepEntry, hlt]
      have hcount : (recordsOf ((k, KVValue.record q) :: rest)).countP
          (fun p => decide (p.stored_at < cutoffTime)) =
          (recordsOf rest).countP (fun p => decide (p.stored_at < cutoffTime)) := by
        simp only [recordsOf, List.filterMap_cons]
        exact List.countP_cons_of_neg _ _ (by simp [hlt])
      simp [List.filter_cons, hkeep, hcount]

theorem cleanupOldPosts_wf {kv : KV} (now maxAgeDays : Int) (hwf : WFkv kv) :
    cleanupOldPosts noFaults now maxAgeDays kv =
      (kv.filter (keepEntry (now - maxAgeDays * 24 * 60 * 60 * 1000)),
        some ((recordsOf kv).countP
          (fun p => decide (p.stored_at < now - maxAgeDays * 24 * 60 * 60 * 1000)))) := by
  rw [cleanupOldPosts]
  simp only [kv_list_wf hwf.2]
  simp only [cleanupLoop_wf (now - maxAgeDays * 24 * 60 * 60 * 1000) hwf]

theorem any_eq_decide_mem (S : List StoredPost) (i : String) :
    S.any (fun storedPost => decide (storedPost.post_id = i)) =
      decide (i ∈ S.map StoredPost.post_id) := by
  induction S with
  | nil => simp
  | cons sp rest ih =>
    have hh : decide (sp.post_id = i) = decide (i = sp.post_id) :=
      decide_eq_decide.mpr eq_comm
    simp [List.any_cons, ih, List.mem_cons, hh]

/-! ### The claims -/

/-- Claim C7: if the KV listing itself fails, `getPostsFromKV` catches the
rejection and returns the empty sequence instead of raising, so the ingest
run proceeds and its dedup filter treats every candidate as new. -/
theorem C7_store_unavailable_degrades_open (f : KVFaults) (kv : KV)
    (posts : List RedditPost) (h : f.listFails = true) :
    getPostsFromKV f kv = [] ∧ newPostsOf posts (getPostsFromKV f kv) = posts := by
  have hempty : getPostsFromKV f kv = [] := by
    simp [getPostsFromKV, kv_list, h]
  refine ⟨hempty, ?_⟩
  rw [hempty]
  simp [newPostsOf]

/-- Witness for C7 at a broken service, an empty store and one candidate. -/
theorem C7_witness :
    getPostsFromKV listFault [] = [] ∧
      newPostsOf [samplePost "p1"] (getPostsFromKV listFault []) = [samplePost "p1"] :=
  C7_store_unavailable_degrades_open listFault [] [samplePost "p1"] rfl

/-- Claim C8: `sendDiscordNotification` never throws to its caller — it
always returns `Except.ok` whatever the webhook configuration and the
outcome of the outbound call — and with no webhook configured (missing or
empty URL) it returns the skip result, attempting no outbound request. -/
theorem C8_notify_never_throws (post : RedditPost) (webhookUrl : Option String)
    (outcome : FetchOutcome) :
    sendDiscordNotification post webhookUrl outcome =
        Except.ok (notifyResultOf webhookUrl outcome) ∧
      ((webhookUrl = none ∨ webhookUrl = some "") →
        sendDiscordNotification post webhookUrl outcome =
            Except.ok NotifyResult.skippedNoWebhook ∧
          requestAttempted (notifyResultOf webhookUrl outcome) = false) := by
  refine ⟨send_ok post webhookUrl outcome, ?_⟩
  rintro (rfl | rfl)
  · exact ⟨rfl, rfl⟩
  · exact ⟨by simp [sendDiscordNotification], by simp [notifyResultOf, requestAttempted]⟩

/-- Witness for C8 with no webhook configured and a failing network. -/
theorem C8_witness :
    sendDiscordNotification (samplePost "p1") none FetchOutcome.networkError =
        Except.ok NotifyResult.skippedNoWebhook ∧
      requestAttempted (notifyResultOf none FetchOutcome.networkError) = false :=
  (C8_notify_never_throws (samplePost "p1") none FetchOutcome.networkError).2 (Or.inl rfl)

/-- Claim C2: saving the same post twice (with any two timestamps) leaves
exactly one binding for its key `"post:" + id`, holding the record stamped
by the second save: the write is idempotent by key addressing and never
duplicates. -/
theorem C2_save_idempotent (post : RedditPost) (kv : KV) (now1 now2 : Int)
    (hnd : (kv.map Prod.fst).Nodup) :
    kvLookup (storePostInKV noFaults now2 post (storePostInKV noFaults now1 post kv))
        (postKey post) = some (KVValue.record (mkStoredPost post now2)) ∧
      List.count (postKey post)
        ((storePostInKV noFaults now2 post
          (storePostInKV noFaults now1 post kv)).map Prod.fst) = 1 := by
  rw [storePostInKV_eq_put now1 post kv rfl, storePostInKV_eq_put now2 post _ rfl]
  exact ⟨kvLookup_put_self _ _ _, count_keys_put _ _ (nodup_keys_put _ hnd)⟩

/-- Witness for C2: double save of one post into a store holding another. -/
theorem C2_witness :
    kvLookup (storePostInKV noFaults 7 (samplePost "p1")
        (storePostInKV noFaults 3 (samplePost "p1") [recEntry (sampleStored "p2" 0)]))
        (postKey (samplePost "p1")) =
      some (KVValue.record (mkStoredPost (samplePost "p1") 7)) ∧
    List.count (postKey (samplePost "p1"))
      ((storePostInKV noFaults 7 (samplePost "p1")
        (storePostInKV noFaults 3 (samplePost "p1")
          [recEntry (sampleStored "p2" 0)])).map Prod.fst) = 1 :=
  C2_save_idempotent (samplePost "p1") [recEntry (sampleStored "p2" 0)] 3 7 (by decide)

/-- Claim C10: the sweeper's age test is strict — a single stored record is
deleted exactly when `stored_at < cutoff`, so a record sitting exactly at
the cutoff is retained — and a listed key whose value is absent is never
deleted. -/
theorem C10_strict_cutoff (now maxAgeDays : Int) (r : StoredPost) (s : String) :
    (cleanupOldPosts noFaults now maxAgeDays [recEntry r] =
        if r.stored_at < now - maxAgeDays * 24 * 60 * 60 * 1000 then ([], some 1)
        else ([recEntry r], some 0)) ∧
      (r.stored_at = now - maxAgeDays * 24 * 60 * 60 * 1000 →
        cleanupOldPosts noFaults now maxAgeDays [recEntry r] = ([recEntry r], some 0)) ∧
      cleanupOldPosts noFaults now maxAgeDays [("post:" ++ s, KVValue.absent)] =
        ([("post:" ++ s, KVValue.absent)], some 0) := by
  have hwf : WFkv [recEntry r] := by
    constructor
    · simp
    · intro e he
      rw [List.mem_singleton] at he
      subst he
      simp [entryOK, recEntry]
  have hmain := cleanupOldPosts_wf now maxAgeDays hwf
  refine ⟨?_, ?_, ?_⟩
  · rw [hmain]
    by_cases hlt : r.stored_at < now - maxAgeDays * 24 * 60 * 60 * 1000
    · rw [if_pos hlt]
      simp [keepEntry, recEntry, recordsOf, hlt]
    · rw [if_neg hlt]
      simp [keepEntry, recEntry, recordsOf, hlt]
  · intro heq
    rw [hmain]
    have hlt : ¬(r.stored_at < now - maxAgeDays * 24 * 60 * 60 * 1000) := by
      rw [heq]
      exact lt_irrefl _
    simp [keepEntry, recEntry, recordsOf, hlt]
  · have hlist : kv_list noFaults [("post:" ++ s, KVValue.absent)] "post:" =
        Except.ok ["post:" ++ s] := by
      simp [kv_list, noFaults, strStartsWith_append]
    rw [cleanupOldPosts]
    simp only [hlist]
    simp [cleanupLoop, kv_get, noFaults, kvLookup]

/-- Witness for C10 at a record sitting exactly on the cutoff. -/
theorem C10_witness :
    cleanupOldPosts noFaults 2592000000 30 [recEntry (sampleStored "p1" 0)] =
      ([recEntry (sampleStored "p1" 0)], some 0) :=
  (C10_strict_cutoff 2592000000 30 (sampleStored "p1" 0) "x").2.1 (by decide)

/-- Claim C3: the sweeper's cutoff is `now - maxAgeDays * 86,400,000` ms —
for `maxAgeDays = 30` that is `now - 2,592,000,000` — and of two stored
records sitting 1 ms on either side of the cutoff, exactly the older one is
deleted. -/
theorem C3_retention_boundary (now : Int) (r1 r2 : StoredPost)
    (h1 : r1.stored_at = now - 2592000000 - 1)
    (h2 : r2.stored_at = now - 2592000000 + 1)
    (hne : r1.post_id ≠ r2.post_id) :
    (30 : Int) * 24 * 60 * 60 * 1000 = 2592000000 ∧
      cleanupOldPosts noFaults now 30 [recEntry r1, recEntry r2] =
        ([recEntry r2], some 1) := by
  refine ⟨by norm_num, ?_⟩
  have hkeys : ("post:" ++ r1.post_id : String) ≠ "post:" ++ r2.post_id :=
    fun hh => hne (string_append_left_cancel hh)
  have hwf : WFkv [recEntry r1, recEntry r2] := by
    constructor
    · simp [recEntry, List.nodup_cons, hkeys]
    · intro e he
      rcases List.mem_cons.mp he with rfl | he'
      · simp [entryOK, recEntry]
      · rw [List.mem_singleton] at he'
        subst he'
        simp [entryOK, recEntry]
  have h30 : now - (30 : Int) * 24 * 60 * 60 * 1000 = now - 2592000000 := by norm_num
  rw [cleanupOldPosts_wf now 30 hwf]
  simp only [h30]
  have hlt1 : r1.stored_at < now - 2592000000 := by rw [h1]; omega
  have hlt2 : ¬(r2.stored_at < now - 2592000000) := by rw [h2]; omega
  simp [keepEntry, recEntry, recordsOf, hlt1, hlt2]

/-- Witness for C3 with `now` 1 ms above the retention window over two
concrete records. -/
theorem C3_witness :
    (30 : Int) * 24 * 60 * 60 * 1000 = 2592000000 ∧
      cleanupOldPosts noFaults 2592000001 30
          [recEntry (sampleStored "p1" 0), recEntry (sampleStored "p2" 2)] =
        ([recEntry (sampleStored "p2" 2)], some 1) :=
  C3_retention_boundary 2592000001 (sampleStored "p1" 0) (sampleStored "p2" 2)
    (by decide) (by decide) (by decide)

/-- Claim C4: on a fault-free service and a well-formed store, the sweep
with `maxAgeDays = 30` deletes exactly the records with
`stored_at < now - 2,592,000,000` and reports exactly their number as its
deleted count. -/
theorem C4_sweep_reports_deleted_count (now : Int) (kv : KV) (hwf : WFkv kv) :
    cleanupOldPosts noFaults now 30 kv =
      (kv.filter (keepEntry (now - 2592000000)),
        some ((recordsOf kv).countP
          (fun p => decide (p.stored_at < now - 2592000000)))) := by
  have h30 : now - (30 : Int) * 24 * 60 * 60 * 1000 = now - 2592000000 := by norm_num
  rw [cleanupOldPosts_wf now 30 hwf]
  simp only [h30]

/-- Witness for C4: a store with one stale and one fresh record reports one
deletion. -/
theorem C4_witness :
    cleanupOldPosts noFaults 2592000002 30
        [recEntry (sampleStored "p1" 0), recEntry (sampleStored "p2" 100)] =
      ([recEntry (sampleStored "p2" 100)], some 1) :=
  (C4_sweep_reports_deleted_count 2592000002
      [recEntry (sampleStored "p1" 0), recEntry (sampleStored "p2" 100)]
      (by decide)).trans (by decide)

/-- Claim C1: the ingest step's `new_items` filter equals the spec-side
set difference `C − S` by identifier (same order, as a filter of the
candidate sequence), and — for a fault-free service over a well-formed
store — after one ingest run every candidate's identifier is stored, so
running the ingest step again with the same candidates finds zero new
items. -/
theorem C1_dedup_and_second_run (posts : List RedditPost) (kv : KV) (now : Int)
    (webhookUrl : Option String) (outcome : RedditPost → FetchOutcome)
    (hwf : WFkv kv) :
    newPostsOf posts (getPostsFromKV noFaults kv) =
        specNewItems posts ((getPostsFromKV noFaults kv).map StoredPost.post_id) ∧
      ∃ kv2 results,
        ingestRun noFaults now webhookUrl outcome posts kv = Except.ok (kv2, results) ∧
          newPostsOf posts (getPostsFromKV noFaults kv2) = [] := by
  constructor
  · apply List.filter_congr
    intro p _
    rw [any_eq_decide_mem]
  · have hS := getPostsFromKV_wf hwf
    refine ⟨_, _, ingestLoop_ok noFaults now webhookUrl outcome
      (newPostsOf posts (getPostsFromKV noFaults kv)) kv, ?_⟩
    rw [hS]
    have hwf2 : WFkv (storeAll noFaults now (newPostsOf posts (recordsOf kv)) kv) :=
      WF_storeAll now _ hwf
    rw [getPostsFromKV_wf hwf2, newPostsOf, List.filter_eq_nil_iff]
    intro p hp
    have hb : (recordsOf (storeAll noFaults now
        (newPostsOf posts (recordsOf kv)) kv)).any
        (fun storedPost => decide (storedPost.post_id = p.id)) = true := by
      apply mem_idsOf_iff_any.mp
      cases hmem : (recordsOf kv).any (fun storedPost => decide (storedPost.post_id = p.id)) with
      | true => exact ids_storeAll_mono now _ hwf (mem_idsOf_iff_any.mpr hmem)
      | false =>
        have hnew : p ∈ newPostsOf posts (recordsOf kv) :=
          List.mem_filter.mpr ⟨hp, by rw [hmem]; rfl⟩
        exact ids_storeAll_self now _ hwf hnew
    simp [hb]

/-- Witness for C1: the spec's scenario — candidates `p1`, `p2` with `p2`
already stored. -/
theorem C1_witness :
    newPostsOf [samplePost "p1", samplePost "p2"]
        (getPostsFromKV noFaults [recEntry (sampleStored "p2" 0)]) =
      specNewItems [samplePost "p1", samplePost "p2"]
        ((getPostsFromKV noFaults [recEntry (sampleStored "p2" 0)]).map StoredPost.post_id) ∧
    ∃ kv2 results,
      ingestRun noFaults 5 (some "hook") (fun _ => FetchOutcome.success)
          [samplePost "p1", samplePost "p2"] [recEntry (sampleStored "p2" 0)] =
        Except.ok (kv2, results) ∧
      newPostsOf [samplePost "p1", samplePost "p2"] (getPostsFromKV noFaults kv2) = [] :=
  C1_dedup_and_second_run [samplePost "p1", samplePost "p2"]
    [recEntry (sampleStored "p2" 0)] 5 (some "hook") (fun _ => FetchOutcome.success)
    (by decide)

/-- Claim C9: in the per-item ingest loop over items A, B, C — where A's
notification fails with a network error and B's persistence fails — A's
record is stored and stays stored (its notification failure undoes
nothing), the loop reaches C, and C is both persisted and notified
(`sent`); B's persistence failure is caught inside `storePostInKV` and
aborts nothing. -/
theorem C9_partial_failure_isolation (f : KVFaults) (now : Int) (u : String)
    (outcome : RedditPost → FetchOutcome) (A B C : RedditPost) (kv : KV)
    (hu : u ≠ "")
    (hA : f.putFails (postKey A) = false)
    (hB : f.putFails (postKey B) = true)
    (hC : f.putFails (postKey C) = false)
    (hoA : outcome A = FetchOutcome.networkError)
    (hoB : outcome B = FetchOutcome.success)
    (hoC : outcome C = FetchOutcome.success)
    (hAC : A.id ≠ C.id) :
    ingestLoop f now (some u) outcome [A, B, C] kv =
        Except.ok (storeAll f now [A, B, C] kv,
          [NotifyResult.errorCaught, NotifyResult.sent, NotifyResult.sent]) ∧
      kvLookup (storeAll f now [A, B, C] kv) (postKey A) =
        some (KVValue.record (mkStoredPost A now)) ∧
      kvLookup (storeAll f now [A, B, C] kv) (postKey C) =
        some (KVValue.record (mkStoredPost C now)) := by
  have hstores : storeAll f now [A, B, C] kv =
      kvPutRaw (kvPutRaw kv (postKey A) (KVValue.record (mkStoredPost A now)))
        (postKey C) (KVValue.record (mkStoredPost C now)) := by
    show storePostInKV f now C (storePostInKV f now B (storePostInKV f now A kv)) = _
    rw [storePostInKV_eq_put now A kv hA, storePostInKV_fail now B _ hB,
      storePostInKV_eq_put now C _ hC]
  refine ⟨?_, ?_, ?_⟩
  · rw [ingestLoop_ok]
    simp [notifyResultOf, hu, hoA, hoB, hoC]
  · rw [hstores, kvLookup_put_ne _ _ (postKey_ne_of_id_ne hAC), kvLookup_put_self]
  · rw [hstores, kvLookup_put_self]

/-- Witness for C9 at three concrete posts, where only the put of
`"post:b"` rejects and only item `a`'s webhook call errors. -/
theorem C9_witness :
    ingestLoop putFaultB 5 (some "hook")
        (fun p => if p.id = "a" then FetchOutcome.networkError else FetchOutcome.success)
        [samplePost "a", samplePost "b", samplePost "c"] [] =
        Except.ok (storeAll putFaultB 5
            [samplePost "a", samplePost "b", samplePost "c"] [],
          [NotifyResult.errorCaught, NotifyResult.sent, NotifyResult.sent]) ∧
      kvLookup (storeAll putFaultB 5
          [samplePost "a", samplePost "b", samplePost "c"] []) (postKey (samplePost "a")) =
        some (KVValue.record (mkStoredPost (samplePost "a") 5)) ∧
      kvLookup (storeAll putFaultB 5
          [samplePost "a", samplePost "b", samplePost "c"] []) (postKey (samplePost "c")) =
        some (KVValue.record (mkStoredPost (samplePost "c") 5)) :=
  C9_partial_failure_isolation putFaultB 5 "hook"
    (fun p => if p.id = "a" then FetchOutcome.networkError else FetchOutcome.success)
    (samplePost "a") (samplePost "b") (samplePost "c") []
    (by decide) (by decide) (by decide) (by decide)
    (by decide) (by decide) (by decide) (by decide)

/-- Counterexample to claim C6: a store holding records for `a` and `c`
and one malformed value in between.  `getPostsFromKV` returns the empty
batch — the malformed value makes `kv.get(-, "json")` throw, and the
`try`/`catch` wraps the whole loop — instead of skipping that key and
returning the records of `a` and `c` as the claim states. -/
theorem C6_counterexample :
    getPostsFromKV noFaults
        [recEntry (sampleStored "a" 0), ("post:x", KVValue.malformed),
          recEntry (sampleStored "c" 0)] = [] ∧
      getPostsFromKV noFaults
        [recEntry (sampleStored "a" 0), ("post:x", KVValue.malformed),
          recEntry (sampleStored "c" 0)] ≠
        [sampleStored "a" 0, sampleStored "c" 0] := by
  decide

/-- Claim C6 as amended: `getPostsFromKV` skips keys whose value is absent
and returns the records of all remaining keys, but a key whose value is
malformed (fails JSON deserialization) makes the whole enumeration return
the empty batch, because the `try`/`catch` wraps the entire fetch loop. -/
theorem C6_loadAll_amended (kvG kvB : KV)
    (hndG : (kvG.map Prod.fst).Nodup)
    (hpreG : ∀ k ∈ kvG.map Prod.fst, strStartsWith "post:" k = true)
    (hmG : ∀ e ∈ kvG, e.2 ≠ KVValue.malformed)
    (hndB : (kvB.map Prod.fst).Nodup)
    (hpreB : ∀ k ∈ kvB.map Prod.fst, strStartsWith "post:" k = true)
    (hbad : ∃ e ∈ kvB, e.2 = KVValue.malformed) :
    getPostsFromKV noFaults kvG = recordsOf kvG ∧
      getPostsFromKV noFaults kvB = [] :=
  ⟨getPostsFromKV_noMal hndG hpreG hmG, getPostsFromKV_malformed hndB hpreB hbad⟩

/-- Witness for the amended C6: a store with an absent value among records
(absent skipped, records returned) and a store with a malformed value
(empty batch). -/
theorem C6_witness :
    getPostsFromKV noFaults
        [recEntry (sampleStored "a" 0), ("post:gone", KVValue.absent),
          recEntry (sampleStored "c" 0)] =
      recordsOf [recEntry (sampleStored "a" 0), ("post:gone", KVValue.absent),
        recEntry (sampleStored "c" 0)] ∧
      getPostsFromKV noFaults
        [recEntry (sampleStored "d" 0), ("post:y", KVValue.malformed)] = [] :=
  C6_loadAll_amended
    [recEntry (sampleStored "a" 0), ("post:gone", KVValue.absent),
      recEntry (sampleStored "c" 0)]
    [recEntry (sampleStored "d" 0), ("post:y", KVValue.malformed)]
    (by decide) (by decide) (by decide) (by decide) (by decide) (by decide)

/-- Counterexample to claim C5: three records `a`, `b`, `c`, all older than
the cutoff, where only the delete of `"post:b"` rejects.  The sweep deletes
`a`, then aborts on `b`'s failure — the `try`/`catch` wraps the whole
loop — so `c`, whose deletion would have succeeded, is never examined and
remains in the store, contradicting the claim that the sweep continues
with the remaining records. -/
theorem C5_counterexample :
    cleanupOldPosts deleteFaultB 2592000010 30
        [recEntry (sampleStored "a" 0), recEntry (sampleStored "b" 0),
          recEntry (sampleStored "c" 0)] =
      ([recEntry (sampleStored "b" 0), recEntry (sampleStored "c" 0)], none) ∧
      recEntry (sampleStored "c" 0) ∈
        (cleanupOldPosts deleteFaultB 2592000010 30
          [recEntry (sampleStored "a" 0), recEntry (sampleStored "b" 0),
            recEntry (sampleStored "c" 0)]).1 := by
  decide

/-- Claim C5 as amended: a failing read or delete of one record is NOT
skipped — it aborts the rest of the sweep.  Deletions made before the
failure persist, records after the failing one are never examined (they
remain even when older than the cutoff), and no deleted count is
reported. -/
theorem C5_sweep_aborts_on_failure (f : KVFaults) (now : Int) (ra rb rc : StoredPost)
    (hlf : f.listFails = false)
    (hga : f.getFails ("post:" ++ ra.post_id) = false)
    (hgb : f.getFails ("post:" ++ rb.post_id) = false)
    (hda : f.deleteFails ("post:" ++ ra.post_id) = false)
    (hdb : f.deleteFails ("post:" ++ rb.post_id) = true)
    (hab : ra.post_id ≠ rb.post_id) (hac : ra.post_id ≠ rc.post_id)
    (holda : ra.stored_at < now - 2592000000)
    (holdb : rb.stored_at < now - 2592000000)
    (holdc : rc.stored_at < now - 2592000000) :
    cleanupOldPosts f now 30 [recEntry ra, recEntry rb, recEntry rc] =
      ([recEntry rb, recEntry rc], none) := by
  have hlist : kv_list f [recEntry ra, recEntry rb, recEntry rc] "post:" =
      Except.ok ["post:" ++ ra.post_id, "post:" ++ rb.post_id, "post:" ++ rc.post_id] := by
    simp [kv_list, hlf, recEntry, List.filter_cons, strStartsWith_append]
  have hkba : ¬(("post:" ++ rb.post_id : String) = "post:" ++ ra.post_id) :=
    fun hh => hab (string_append_left_cancel hh).symm
  have hkca : ¬(("post:" ++ rc.post_id : String) = "post:" ++ ra.post_id) :=
    fun hh => hac (string_append_left_cancel hh).symm
  have hdel1 : kvDeleteRaw [recEntry ra, recEntry rb, recEntry rc]
      ("post:" ++ ra.post_id) = [recEntry rb, recEntry rc] := by
    simp [kvDeleteRaw, List.filter_cons, recEntry, hkba, hkca]
  have hget1 : kv_get f [recEntry ra, recEntry rb, recEntry rc]
      ("post:" ++ ra.post_id) = Except.ok (some ra) := by
    simp [kv_get, hga, recEntry, kvLookup]
  have hget2 : kv_get f [recEntry rb, recEntry rc]
      ("post:" ++ rb.post_id) = Except.ok (some rb) := by
    simp [kv_get, hgb, recEntry, kvLookup]
  have hstep2 : cleanupLoop f (now - 2592000000)
      ["post:" ++ rb.post_id, "post:" ++ rc.post_id] [recEntry rb, recEntry rc] =
      Except.error [recEntry rb, recEntry rc] := by
    rw [cleanupLoop_cons]
    simp only [hget2]
    rw [if_pos holdb]
    simp [kv_delete, hdb]
  have hstep1 : cleanupLoop f (now - 2592000000)
      ["post:" ++ ra.post_id, "post:" ++ rb.post_id, "post:" ++ rc.post_id]
      [recEntry ra, recEntry rb, recEntry rc] =
      Except.error [recEntry rb, recEntry rc] := by
    rw [cleanupLoop_cons]
    simp only [hget1]
    rw [if_pos holda]
    simp only [kv_delete, hda, Bool.false_eq_true, if_false, hdel1, hstep2]
  rw [cleanupOldPosts]
  simp only [hlist]
  norm_num
  rw [hstep1]

/-- Witness for the amended C5 at the counterexample's concrete input. -/
theorem C5_witness :
    cleanupOldPosts deleteFaultB 2592000010 30
        [recEntry (sampleStored "a" 1), recEntry (sampleStored "b" 2),
          recEntry (sampleStored "c" 3)] =
      ([recEntry (sampleStored "b" 2), recEntry (sampleStored "c" 3)], none) :=
  C5_sweep_aborts_on_failure deleteFaultB 2592000010
    (sampleStored "a" 1) (sampleStored "b" 2) (sampleStored "c" 3)
    (by decide) (by decide) (by decide) (by decide) (by decide)
    (by decide) (by decide) (by decide) (by decide) (by decide)

end RedditScanner
